import Mathlib

/-!
Verification development for the Scout agent core: the LangGraph workflow
executor (`executeTools`, per-channel reducers, `shouldContinue` routing) and
the AISDK5 tool-contract layer (`ScoutTools` Zod schemas wrapped by
`createAisdk5Tools`).

The embedding models JavaScript runtime values with a JSON-like inductive
`JVal` (numbers as rationals, `undefined` as an explicit constructor, since
member access on absent keys yields `undefined`).  Tool argument validation
translates the Zod schemas field by field; the workflow functions translate
the TypeScript of the graph module.  Where the TypeScript calls a LangChain
library function, the library's documented semantics are modelled explicitly
and noted in the doc comment of the corresponding definition.
-/

/-- JavaScript runtime value as seen by the tool layer: JSON values plus
`undefined`.  Numbers are modelled as rationals (JS numbers are floats; the
schemas only test integrality, sign and bounds, which rationals capture). -/
inductive JVal where
  | vundefined : JVal
  | vnull : JVal
  | vbool : Bool → JVal
  | vnum : Rat → JVal
  | vstr : String → JVal
  | varr : List JVal → JVal
  | vobj : List (String × JVal) → JVal

/-- Object member lookup on a field list.  JavaScript object literals let a
later duplicate key win, hence the lookup on the reversed list; an absent key
reads as `undefined`. -/
def fieldOf (fs : List (String × JVal)) (k : String) : JVal :=
  ((fs.reverse).lookup k).getD .vundefined

/-- JavaScript member access `v[k]`: throws a TypeError on `null` or
`undefined`, reads a field of an object, and yields `undefined` on other
primitives and on arrays (no claim reads an array index or `length`). -/
def jsMember : JVal → String → Except String JVal
  | .vundefined, k => .error ("TypeError: cannot read properties of undefined, reading " ++ k)
  | .vnull, k => .error ("TypeError: cannot read properties of null, reading " ++ k)
  | .vobj fs, k => .ok (fieldOf fs k)
  | _, _ => .ok .vundefined

/-- JavaScript truthiness (`NaN` is not representable in the rational model;
`-0` does not exist for rationals). -/
def jsTruthy : JVal → Bool
  | .vundefined => false
  | .vnull => false
  | .vbool b => b
  | .vnum q => decide (q ≠ 0)
  | .vstr s => decide (s ≠ "")
  | .varr _ => true
  | .vobj _ => true

/-- Rendering of a number as by JS `String(...)`: exact for integers, which is
the only case reachable from validated inputs; non-integral rationals are
rendered as a fraction (JS would print a decimal expansion of the double). -/
def jsNumString (q : Rat) : String :=
  if q.den = 1 then toString q.num else toString q.num ++ "/" ++ toString q.den

mutual

/-- JS `String(...)` conversion: arrays join their elements with commas
(with `null` and `undefined` elements rendered empty), plain objects render
as `[object Object]`. -/
def jsString : JVal → String
  | .vundefined => "undefined"
  | .vnull => "null"
  | .vbool true => "true"
  | .vbool false => "false"
  | .vnum q => jsNumString q
  | .vstr s => s
  | .varr xs => String.intercalate "," (jsStringElems xs)
  | .vobj _ => "[object Object]"

/-- Element renderings for `Array.prototype.toString`. -/
def jsStringElems : List JVal → List String
  | [] => []
  | .vundefined :: rest => "" :: jsStringElems rest
  | .vnull :: rest => "" :: jsStringElems rest
  | v :: rest => jsString v :: jsStringElems rest

end

/-- UTF-16 code units contributed by each character of a string. -/
def utf16LenAux : List Char → Nat
  | [] => 0
  | c :: rest => (if c.toNat ≥ 0x10000 then 2 else 1) + utf16LenAux rest

/-- String length as counted by Zod's `.min`/`.max`: UTF-16 code units. -/
def utf16Len (s : String) : Nat :=
  utf16LenAux s.data

/-- A value is JS `undefined` (for Zod, a key that is absent and a key set to
`undefined` are the same: `.optional()` accepts exactly `undefined`). -/
def isUndefined : JVal → Bool
  | .vundefined => true
  | _ => false

/-- Schema `z.string().min(n)`. -/
def isStrMin (n : Nat) : JVal → Bool
  | .vstr s => decide (n ≤ utf16Len s)
  | _ => false

/-- Schema `z.string().min(lo).max(hi)`. -/
def isStrBetween (lo hi : Nat) : JVal → Bool
  | .vstr s => decide (lo ≤ utf16Len s) && decide (utf16Len s ≤ hi)
  | _ => false

/-- Modifier `.optional()`: absent (undefined) or satisfying the inner schema. -/
def jOpt (p : JVal → Bool) (v : JVal) : Bool :=
  isUndefined v || p v

/-- The `AbsolutePath` regex of `ScoutTools`:
`/^\/(?:project\/workspace|home\/scrapybara)\/.*/` — unanchored at the end,
so it just demands one of the two root prefixes. -/
def absolutePathOk (s : String) : Bool :=
  s.startsWith "/project/workspace/" || s.startsWith "/home/scrapybara/"

/-- A string field matching `AbsolutePath`. -/
def isAbsPath : JVal → Bool
  | .vstr s => absolutePathOk s
  | _ => false

/-- Any string (`z.string()` with no refinement). -/
def isStrAny : JVal → Bool
  | .vstr _ => true
  | _ => false

/-- Any number (`z.number()`). -/
def isNumAny : JVal → Bool
  | .vnum _ => true
  | _ => false

/-- Schema `z.number().positive()`. -/
def isPosNum : JVal → Bool
  | .vnum q => decide (0 < q)
  | _ => false

/-- Schema `z.number().int().positive()`. -/
def isPosInt : JVal → Bool
  | .vnum q => decide (q.den = 1) && decide (0 < q)
  | _ => false

/-- Schema `z.boolean()`. -/
def isBoolVal : JVal → Bool
  | .vbool _ => true
  | _ => false

/-- A `z.enum` membership test. -/
def isEnum (l : List String) : JVal → Bool
  | .vstr s => l.contains s
  | _ => false

/-- Schema `z.array(z.string())`. -/
def isStrArray : JVal → Bool
  | .varr xs => xs.all isStrAny
  | _ => false

/-- Schema `z.array(item).min(n)`. -/
def isArrayMinOf (p : JVal → Bool) (n : Nat) : JVal → Bool
  | .varr xs => xs.all p && decide (n ≤ xs.length)
  | _ => false

/-- The `ComputerAction` enum of `ScoutTools`. -/
def computerActions : List String :=
  ["key", "hold_key", "type", "cursor_position", "mouse_move", "left_mouse_down",
   "left_mouse_up", "left_click", "left_click_drag", "right_click", "middle_click",
   "double_click", "triple_click", "scroll", "wait", "screenshot"]

/-- The actions the `computer` refinement requires a coordinate for. -/
def pointerActions : List String :=
  ["mouse_move", "left_click", "right_click", "middle_click", "double_click", "triple_click"]

/-- The `ScrollDirection` enum. -/
def scrollDirections : List String := ["up", "down", "left", "right"]

/-- The `TaskStatus` enum. -/
def taskStatuses : List String := ["pending", "in_progress", "completed", "cancelled"]

/-- The `Coordinate` schema: a 2-tuple of integers within 0..1024 and 0..768
(`z.tuple([z.number().int().min(0).max(1024), z.number().int().min(0).max(768)])`). -/
def validCoordinate : JVal → Bool
  | .varr [.vnum x, .vnum y] =>
      decide (x.den = 1) && decide (0 ≤ x) && decide (x ≤ 1024) &&
      decide (y.den = 1) && decide (0 ≤ y) && decide (y ≤ 768)
  | _ => false

/-- The parsed `action` discriminant as a string (the Zod field check already
guarantees it is a string from `computerActions`). -/
def actionString (fs : List (String × JVal)) : String :=
  match fieldOf fs "action" with
  | .vstr a => a
  | _ => ""

/-- The per-field part of the `computer` parameter schema of `ScoutTools`. -/
def computerFieldsOk (fs : List (String × JVal)) : Bool :=
  isEnum computerActions (fieldOf fs "action") &&
  jOpt validCoordinate (fieldOf fs "coordinate") &&
  jOpt isStrAny (fieldOf fs "text") &&
  jOpt isPosNum (fieldOf fs "duration") &&
  jOpt (isEnum scrollDirections) (fieldOf fs "scroll_direction") &&
  jOpt isPosInt (fieldOf fs "scroll_amount") &&
  jOpt validCoordinate (fieldOf fs "start_coordinate")

/-- The `.refine` of the `computer` schema, transcribed condition by
condition from `ScoutTools.computer`. -/
def computerRefineOk (fs : List (String × JVal)) : Bool :=
  if pointerActions.contains (actionString fs) && !(jsTruthy (fieldOf fs "coordinate")) then false
  else if actionString fs == "left_click_drag" &&
      (!(jsTruthy (fieldOf fs "coordinate")) || !(jsTruthy (fieldOf fs "start_coordinate"))) then false
  else if (actionString fs == "type" || actionString fs == "key") &&
      !(jsTruthy (fieldOf fs "text")) then false
  else if actionString fs == "hold_key" &&
      (!(jsTruthy (fieldOf fs "text")) || isUndefined (fieldOf fs "duration")) then false
  else if actionString fs == "wait" && isUndefined (fieldOf fs "duration") then false
  else if actionString fs == "scroll" &&
      (!(jsTruthy (fieldOf fs "scroll_direction")) || isUndefined (fieldOf fs "scroll_amount")) then false
  else true

/-- Full validation of `computer` args: object shape, per-field schemas, then
the action-conditional refinement. -/
def validateComputer : JVal → Bool
  | .vobj fs => computerFieldsOk fs && computerRefineOk fs
  | _ => false

/-- The `message_update` parameter schema of `ScoutTools`. -/
def validateMessageUpdate : JVal → Bool
  | .vobj fs =>
      isStrMin 1 (fieldOf fs "message") &&
      isStrMin 1 (fieldOf fs "status") &&
      isStrBetween 1 4 (fieldOf fs "status_emoji")
  | _ => false

/-- The `InputQuestion` sub-schema of `ScoutTools`. -/
def validInputQuestion : JVal → Bool
  | .vobj fs =>
      isEnum ["text", "number", "date"] (fieldOf fs "type") &&
      isStrMin 1 (fieldOf fs "question") &&
      jOpt (fun v => isStrAny v || isNumAny v) (fieldOf fs "placeholder") &&
      jOpt isStrArray (fieldOf fs "suggestions")
  | _ => false

/-- The `SelectOption` sub-schema of `ScoutTools`. -/
def validSelectOption : JVal → Bool
  | .vobj fs =>
      isStrBetween 1 4 (fieldOf fs "emoji") &&
      isStrMin 1 (fieldOf fs "title") &&
      isStrMin 1 (fieldOf fs "prompt")
  | _ => false

/-- The per-field part of the `message_ask` parameter schema. -/
def messageAskFieldsOk (fs : List (String × JVal)) : Bool :=
  isStrMin 1 (fieldOf fs "message") &&
  jOpt isAbsPath (fieldOf fs "attachment") &&
  jOpt (isArrayMinOf validInputQuestion 2) (fieldOf fs "follow_ups_input") &&
  jOpt (isArrayMinOf validSelectOption 2) (fieldOf fs "follow_ups_select")

/-- Full validation of `message_ask` args: field schemas, the mutual-exclusion
refinement, and the at-least-one refinement, as in `ScoutTools.message_ask`. -/
def validateMessageAsk : JVal → Bool
  | .vobj fs =>
      messageAskFieldsOk fs &&
      !(jsTruthy (fieldOf fs "follow_ups_input") && jsTruthy (fieldOf fs "follow_ups_select")) &&
      (jsTruthy (fieldOf fs "follow_ups_input") || jsTruthy (fieldOf fs "follow_ups_select"))
  | _ => false

/-- The `Task` sub-schema of `ScoutTools`. -/
def validTask : JVal → Bool
  | .vobj fs =>
      isStrMin 1 (fieldOf fs "id") &&
      isStrMin 1 (fieldOf fs "title") &&
      isEnum taskStatuses (fieldOf fs "status")
  | _ => false

/-- The predicate `t.status === "in_progress"` of the `todo` refinement. -/
def taskInProgress (t : JVal) : Bool :=
  match t with
  | .vobj fs =>
      match fieldOf fs "status" with
      | .vstr s => s == "in_progress"
      | _ => false
  | _ => false

/-- Number of tasks with status `in_progress` in a task collection. -/
def countInProgress : JVal → Nat
  | .varr xs => (xs.filter taskInProgress).length
  | _ => 0

/-- Full validation of `todo` args: `tasks` is a nonempty array of valid
tasks, `request_user_approval` an optional boolean, and the refinement
admits at most one `in_progress` task. -/
def validateTodo : JVal → Bool
  | .vobj fs =>
      isArrayMinOf validTask 1 (fieldOf fs "tasks") &&
      jOpt isBoolVal (fieldOf fs "request_user_approval") &&
      decide (countInProgress (fieldOf fs "tasks") ≤ 1)
  | _ => false

/-- Drop `undefined`-valued keys; a Zod parse omits absent optional keys and
`JSON.stringify` (applied to every tool result before it is re-parsed) drops
`undefined`-valued properties, so the observable normalized object never
carries one. -/
def keepDefined (l : List (String × JVal)) : List (String × JVal) :=
  l.filter (fun kv => !(isUndefined kv.2))

/-- Map a function over array elements (Zod array parsing). -/
def mapArr (f : JVal → JVal) : JVal → JVal
  | .varr xs => .varr (xs.map f)
  | v => v

/-- Zod output for a `Task` item: unknown keys stripped. -/
def normalizeTask : JVal → JVal
  | .vobj fs => .vobj (keepDefined [("id", fieldOf fs "id"), ("title", fieldOf fs "title"),
      ("status", fieldOf fs "status")])
  | v => v

/-- Zod output for `computer` args: the declared keys in shape order, unknown
keys stripped (no defaults in this schema). -/
def normalizeComputer : JVal → JVal
  | .vobj fs => .vobj (keepDefined
      [("action", fieldOf fs "action"), ("coordinate", fieldOf fs "coordinate"),
       ("text", fieldOf fs "text"), ("duration", fieldOf fs "duration"),
       ("scroll_direction", fieldOf fs "scroll_direction"),
       ("scroll_amount", fieldOf fs "scroll_amount"),
       ("start_coordinate", fieldOf fs "start_coordinate")])
  | v => v

/-- Zod output for `message_update` args. -/
def normalizeMessageUpdate : JVal → JVal
  | .vobj fs => .vobj (keepDefined
      [("message", fieldOf fs "message"), ("status", fieldOf fs "status"),
       ("status_emoji", fieldOf fs "status_emoji")])
  | v => v

/-- Zod output for an `InputQuestion` item. -/
def normalizeInputQuestion : JVal → JVal
  | .vobj fs => .vobj (keepDefined
      [("type", fieldOf fs "type"), ("question", fieldOf fs "question"),
       ("placeholder", fieldOf fs "placeholder"), ("suggestions", fieldOf fs "suggestions")])
  | v => v

/-- Zod output for a `SelectOption` item. -/
def normalizeSelectOption : JVal → JVal
  | .vobj fs => .vobj (keepDefined
      [("emoji", fieldOf fs "emoji"), ("title", fieldOf fs "title"),
       ("prompt", fieldOf fs "prompt")])
  | v => v

/-- Zod output for `message_ask` args, with the follow-up arrays mapped
through their item schemas. -/
def normalizeMessageAsk : JVal → JVal
  | .vobj fs => .vobj (keepDefined
      [("message", fieldOf fs "message"), ("attachment", fieldOf fs "attachment"),
       ("follow_ups_input", mapArr normalizeInputQuestion (fieldOf fs "follow_ups_input")),
       ("follow_ups_select", mapArr normalizeSelectOption (fieldOf fs "follow_ups_select"))])
  | v => v

/-- Modifier `.default(false)`: an absent or `undefined` value becomes `false`. -/
def defaultingBool (v : JVal) : JVal :=
  if isUndefined v then .vbool false else v

/-- Zod output for `todo` args: task items stripped, and
`request_user_approval` defaulted to `false`. -/
def normalizeTodo : JVal → JVal
  | .vobj fs => .vobj (keepDefined [("tasks", mapArr normalizeTask (fieldOf fs "tasks"))] ++
      [("request_user_approval", defaultingBool (fieldOf fs "request_user_approval"))])
  | v => v

/-- A proposed call from the oracle (`AgentToolCall` in the graph module). -/
structure ToolCall where
  name : String
  args : JVal

/-- One entry of `outputs` in `executeTools`: tool name, decoded result, and
the original proposal args. -/
structure ToolOutput where
  toolName : String
  result : JVal
  input : JVal

/-- One registered tool: its name, the Zod validation of its parameter
schema, and the Zod parse output (defaults applied, unknown keys stripped)
passed on to the environment and echoed in error documents. -/
structure Tool where
  name : String
  validate : JVal → Bool
  normalize : JVal → JVal

/-- The environment collaborator (`EnvironmentAPI.executeTool`): a result
value or a thrown error carrying a message. -/
abbrev EnvAPI := String → JVal → Except String JVal

/-- The structured error document built by the catch block of the tool
`func` in `createAisdk5Tools`. -/
def errorDoc (msg tool : String) (input : JVal) : JVal :=
  .vobj [("error", .vstr msg), ("tool", .vstr tool), ("input", input), ("status", .vstr "FAILURE")]

/-- One `tool.invoke(call.args)` as performed by `executeTools` on a
`DynamicStructuredTool` from `createAisdk5Tools`.  The LangChain wrapper
first parses the args against the Zod schema and THROWS a
`ToolInputParsingException` on violation (modelled as `Except.error`; the
`func` try/catch never runs in that case).  On success `func` runs: an error
thrown by the environment is caught and returned as the structured error
document.  `func` returns `JSON.stringify` of the result and `executeTools`
immediately `JSON.parse`s it; that round trip is the identity on JSON
values, so it is elided here. -/
def toolInvoke (t : Tool) (env : EnvAPI) (c : ToolCall) : Except String JVal :=
  if t.validate c.args then
    match env t.name (t.normalize c.args) with
    | .ok v => .ok v
    | .error m => .ok (errorDoc m t.name (t.normalize c.args))
  else
    .error ("ToolInputParsingException: received tool input did not match expected schema for " ++ c.name)

/-- The dispatch loop of `executeTools`: look up each proposed call by name
(an unknown name is skipped with `continue`), invoke the tool, and collect
the outputs in proposal order.  A thrown exception aborts the loop. -/
def runCalls (tools : List Tool) (env : EnvAPI) : List ToolCall → Except String (List ToolOutput)
  | [] => .ok []
  | c :: rest =>
    match tools.find? (fun t => t.name == c.name) with
    | none => runCalls tools env rest
    | some t =>
      match toolInvoke t env c with
      | .error e => .error e
      | .ok parsed =>
        match runCalls tools env rest with
        | .error e => .error e
        | .ok outs => .ok ({ toolName := c.name, result := parsed, input := c.args } :: outs)

/-- The names of the `ScoutTools` record, in declaration order (the order
`Object.entries` yields in `createAisdk5Tools`). -/
def scoutToolNames : List String :=
  ["ls", "read", "glob", "grep", "edit", "write", "image_generate", "image_edit",
   "image_search", "web_search", "browser_navigate", "web_download", "bash_run",
   "bash_command_check", "code_template", "download_project_file", "github_pr",
   "socials_search", "computer", "message_update", "message_ask", "todo", "lsp",
   "read_agent", "handoff", "github_command"]

/-- One tool of the registry.  The four contracts exercised by the claims
(`computer`, `message_update`, `message_ask`, `todo`) are translated in
full; the remaining contracts are not consulted by any theorem and are
supplied as parameters `ov`/`onm`. -/
def mkScoutTool (ov : String → JVal → Bool) (onm : String → JVal → JVal) (n : String) : Tool :=
  if n == "computer" then { name := n, validate := validateComputer, normalize := normalizeComputer }
  else if n == "message_update" then
    { name := n, validate := validateMessageUpdate, normalize := normalizeMessageUpdate }
  else if n == "message_ask" then
    { name := n, validate := validateMessageAsk, normalize := normalizeMessageAsk }
  else if n == "todo" then { name := n, validate := validateTodo, normalize := normalizeTodo }
  else { name := n, validate := ov n, normalize := onm n }

/-- The tool list produced by `createAisdk5Tools`. -/
def scoutRegistry (ov : String → JVal → Bool) (onm : String → JVal → JVal) : List Tool :=
  scoutToolNames.map (mkScoutTool ov onm)

/-- One part of a multimodal message content array. -/
inductive ContentPart where
  | text (t : String)
  | image_url (url : String) (detail : String)

/-- A conversation turn: either a multimodal `HumanMessage` built by
`executeTools`, or any other turn (oracle / user messages), which the
executor never inspects. -/
inductive ChatMsg where
  | human (content : List ContentPart)
  | otherTurn (tag : Nat)

/-- The `current_ui_status` record `{message, status, emoji}`. -/
structure UIStatus where
  message : String
  status : String
  emoji : String
deriving DecidableEq

/-- The oracle's output (`AgentOutcome` in the graph module). -/
structure AgentOutcome where
  tool_calls : Option (List ToolCall)

/-- The shared `AgentState` threaded through the graph. -/
structure AgentState where
  chat_history : List ChatMsg
  agentOutcome : Option AgentOutcome := none
  latest_screenshot : Option JVal := none
  current_ui_status : Option UIStatus := none
  current_todo_list : Option JVal := none

/-- A `Partial AgentState` returned by a node: `none` means the key is
absent from the returned object, so its channel receives no write. -/
structure StateDelta where
  chat_history : Option (List ChatMsg) := none
  agentOutcome : Option AgentOutcome := none
  latest_screenshot : Option JVal := none
  current_ui_status : Option UIStatus := none
  current_todo_list : Option JVal := none

/-- The multimodal observation message `executeTools` pushes for a
`computer` outcome carrying a screenshot. -/
def screenshotMessage (act sc : JVal) : ChatMsg :=
  .human [.text ("[System Observation] Screenshot after action: " ++ jsString act),
          .image_url ("data:image/png;base64," ++ jsString sc) "high"]

/-- Accumulator of the result-folding loop of `executeTools`: the partial
state under construction and the multimodal messages collected so far. -/
structure FoldAcc where
  delta : StateDelta
  msgs : List ChatMsg

/-- One iteration of the folding loop of `executeTools` over `outputs`:
the `computer`-with-screenshot branch records the screenshot and pushes an
observation message; the `message_update` branch rebuilds
`current_ui_status` from the call's input; the `todo` branch copies the
input's `tasks`.  Member accesses on `null`/`undefined` throw, aborting the
node, exactly as in JavaScript. -/
def foldStep (acc : FoldAcc) (o : ToolOutput) : Except String FoldAcc :=
  if o.toolName == "computer" then
    match jsMember o.result "screenshot" with
    | .error e => .error e
    | .ok sc =>
      if jsTruthy sc then
        match jsMember o.input "action" with
        | .error e => .error e
        | .ok act =>
            .ok ⟨{ acc.delta with latest_screenshot := some sc },
                 acc.msgs ++ [screenshotMessage act sc]⟩
      else .ok acc
  else if o.toolName == "message_update" then
    match jsMember o.input "message", jsMember o.input "status", jsMember o.input "status_emoji" with
    | .ok m, .ok st, .ok em =>
        .ok ⟨{ acc.delta with current_ui_status := some ⟨jsString m, jsString st, jsString em⟩ },
             acc.msgs⟩
    | .error e, _, _ => .error e
    | _, .error e, _ => .error e
    | _, _, .error e => .error e
  else if o.toolName == "todo" then
    match jsMember o.input "tasks" with
    | .error e => .error e
    | .ok ts => .ok ⟨{ acc.delta with current_todo_list := some ts }, acc.msgs⟩
  else .ok acc

/-- The folding loop over all outputs. -/
def foldAll (acc : FoldAcc) : List ToolOutput → Except String FoldAcc
  | [] => .ok acc
  | o :: rest =>
    match foldStep acc o with
    | .error e => .error e
    | .ok acc2 => foldAll acc2 rest

/-- The result-folding step of `executeTools`: run the loop and, when any
multimodal message was produced, set the `chat_history` key of the delta to
the existing history followed by the new messages (the TypeScript writes
`[...state.chat_history, ...multimodalMessages]`). -/
def foldOutputs (s : AgentState) (outs : List ToolOutput) : Except String StateDelta :=
  match foldAll ⟨{}, []⟩ outs with
  | .error e => .error e
  | .ok acc =>
    .ok (if acc.msgs.isEmpty then acc.delta
         else { acc.delta with chat_history := some (s.chat_history ++ acc.msgs) })

/-- The expression `state.agentOutcome?.tool_calls ?? []`. -/
def proposalCalls (s : AgentState) : List ToolCall :=
  match s.agentOutcome with
  | some o => o.tool_calls.getD []
  | none => []

/-- The `tools` node of the workflow (`executeTools` from
`executeToolsFactory`): dispatch the pending proposal, then fold the
collected outputs into a state delta. -/
def executeTools (tools : List Tool) (env : EnvAPI) (state : AgentState) : Except String StateDelta :=
  match runCalls tools env (proposalCalls state) with
  | .error e => .error e
  | .ok outs => foldOutputs state outs

/-- Last-write-wins on an optional write. -/
def optOr {α : Type} (a b : Option α) : Option α :=
  match a with
  | some v => some v
  | none => b

/-- The per-channel reducers of `createScoutWorkflow`: `chat_history`
concatenates, every other channel is replaced by the delta's value when the
delta carries the key and left unchanged otherwise. -/
def mergeState (s : AgentState) (d : StateDelta) : AgentState :=
  { chat_history := s.chat_history ++ d.chat_history.getD []
    agentOutcome := optOr d.agentOutcome s.agentOutcome
    latest_screenshot := optOr d.latest_screenshot s.latest_screenshot
    current_ui_status := optOr d.current_ui_status s.current_ui_status
    current_todo_list := optOr d.current_todo_list s.current_todo_list }

/-- The router `shouldContinue`: `state.agentOutcome?.tool_calls?.length ? "continue" : "end"`. -/
def shouldContinue (s : AgentState) : String :=
  match s.agentOutcome with
  | some o =>
    match o.tool_calls with
    | some cs => if cs.length == 0 then "end" else "continue"
    | none => "end"
  | none => "end"

/-- The nodes of the compiled workflow graph. -/
inductive GraphNode where
  | startNode
  | agentNode
  | toolsNode
  | endNode
deriving DecidableEq

/-- The conditional-edge map of `addConditionalEdges("agent", shouldContinue,
{continue: "tools", end: END})`. -/
def agentEdgeMap (label : String) : Option GraphNode :=
  if label == "continue" then some .toolsNode
  else if label == "end" then some .endNode
  else none

/-- The successor of the `agent` node for a given state. -/
def routeAfterAgent (s : AgentState) : Option GraphNode :=
  agentEdgeMap (shouldContinue s)

/-- The unconditional edge `addEdge("tools", "agent")`. -/
def edgeAfterTools : GraphNode := .agentNode

/-- The entry edge `addEdge(START, "agent")`. -/
def entryEdge : GraphNode := .agentNode

/-- The `current_ui_status` write contributed by one output, if any. -/
def uiOf (o : ToolOutput) : Option UIStatus :=
  if o.toolName == "message_update" then
    match jsMember o.input "message", jsMember o.input "status", jsMember o.input "status_emoji" with
    | .ok m, .ok st, .ok em => some ⟨jsString m, jsString st, jsString em⟩
    | _, _, _ => none
  else none

/-- The `current_todo_list` write contributed by one output, if any. -/
def todoOf (o : ToolOutput) : Option JVal :=
  if o.toolName == "todo" then (jsMember o.input "tasks").toOption else none

/-- The `latest_screenshot` write contributed by one output, if any. -/
def shotOf (o : ToolOutput) : Option JVal :=
  if o.toolName == "computer" then
    match jsMember o.result "screenshot" with
    | .ok sc => if jsTruthy sc then some sc else none
    | .error _ => none
  else none

/-- The observation message contributed by one output, if any. -/
def shotMsgOf (o : ToolOutput) : Option ChatMsg :=
  if o.toolName == "computer" then
    match jsMember o.result "screenshot" with
    | .ok sc =>
      if jsTruthy sc then
        match jsMember o.input "action" with
        | .ok a => some (screenshotMessage a sc)
        | .error _ => none
      else none
    | .error _ => none
  else none

/-- The task-list invariant: a present merged task list holds at most one
`in_progress` entry. -/
def todoInv (s : AgentState) : Prop :=
  ∀ ts, s.current_todo_list = some ts → countInProgress ts ≤ 1

/-- A validator accepting everything, used to instantiate the registry
parameter for the contracts no theorem consults. -/
def trivialVal : String → JVal → Bool := fun _ _ => true

/-- The identity normalizer for the same purpose. -/
def trivialNorm : String → JVal → JVal := fun _ v => v

/-- An environment that answers `null` to every call. -/
def nullEnv : EnvAPI := fun _ _ => .ok .vnull

/-- An environment that throws on every call (for exercising the error
path of the tool `func`). -/
def failEnv (msg : String) : EnvAPI := fun _ _ => .error msg

/-- A state with a given pending proposal. -/
def withProposal (s : AgentState) (calls : List ToolCall) : AgentState :=
  { s with agentOutcome := some ⟨some calls⟩ }

/-- Args for `message_update` as proposed by the oracle. -/
def muArgsOf (m st em : String) : JVal :=
  .vobj [("message", .vstr m), ("status", .vstr st), ("status_emoji", .vstr em)]

/-- A base state used by the concrete witnesses. -/
def baseState : AgentState := { chat_history := [.otherTurn 0] }

/-- The end-to-end example input of the spec for `message_update`. -/
def scanArgs : JVal := muArgsOf "Scanning files" "Scanning files" "🔍"

/-- A schema-violating `computer` call: `wait` without a duration. -/
def waitNoDurationCall : ToolCall := ⟨"computer", .vobj [("action", .vstr "wait")]⟩

/-- A schema-conforming `computer` call: `wait` with a duration. -/
def waitCall : ToolCall := ⟨"computer", .vobj [("action", .vstr "wait"), ("duration", .vnum 2)]⟩

/-- A valid single task. -/
def oneTask : JVal := .vobj [("id", .vstr "1"), ("title", .vstr "T"), ("status", .vstr "in_progress")]

/-- A second task, also `in_progress` (for the rejection witness). -/
def twoTask : JVal := .vobj [("id", .vstr "2"), ("title", .vstr "U"), ("status", .vstr "in_progress")]

/-- A valid `todo` argument object with exactly one `in_progress` task. -/
def todoArgsOk : JVal := .vobj [("tasks", .varr [oneTask])]

/-- A `todo` argument object with two `in_progress` tasks. -/
def todoArgsBad : JVal := .vobj [("tasks", .varr [oneTask, twoTask])]

/-- A valid two-element `follow_ups_select` array. -/
def twoSelects : JVal := .varr
  [.vobj [("emoji", .vstr "✅"), ("title", .vstr "Yes"), ("prompt", .vstr "Do it")],
   .vobj [("emoji", .vstr "❌"), ("title", .vstr "No"), ("prompt", .vstr "Skip it")]]

/-- A valid two-element `follow_ups_input` array. -/
def twoInputs : JVal := .varr
  [.vobj [("type", .vstr "text"), ("question", .vstr "Which repo?")],
   .vobj [("type", .vstr "number"), ("question", .vstr "How many?")]]

/-- Field list for `message_ask` with exactly the select alternative. -/
def askSelectFields : List (String × JVal) := [("message", .vstr "Done"), ("follow_ups_select", twoSelects)]

/-- Field list for `message_ask` with both alternatives. -/
def askBothFields : List (String × JVal) :=
  [("message", .vstr "Done"), ("follow_ups_input", twoInputs), ("follow_ups_select", twoSelects)]

/-- Field list for `message_ask` with neither alternative. -/
def askNeitherFields : List (String × JVal) := [("message", .vstr "Done")]

/-- A `computer` output carrying a screenshot, for the fold witnesses. -/
def shotOut (tag : String) : ToolOutput :=
  { toolName := "computer", result := .vobj [("screenshot", .vstr tag)],
    input := .vobj [("action", .vstr "screenshot")] }

/-- A `message_update` output, for the fold witnesses. -/
def muOut (tag : String) : ToolOutput :=
  { toolName := "message_update", result := .vnull, input := muArgsOf tag tag tag }

theorem isUndefined_iff {v : JVal} : isUndefined v = true ↔ v = .vundefined := by
  cases v <;> simp [isUndefined]

theorem jsTruthy_not_undefined {v : JVal} (h : jsTruthy v = true) : isUndefined v = false := by
  cases v <;> simp_all [jsTruthy, isUndefined]

theorem isStrAny_elim {v : JVal} (h : isStrAny v = true) : ∃ s, v = .vstr s := by
  cases v <;> simp_all [isStrAny]

theorem isPosNum_elim {v : JVal} (h : isPosNum v = true) : ∃ q, v = .vnum q ∧ 0 < q := by
  cases v <;> simp_all [isPosNum]

theorem isPosInt_elim {v : JVal} (h : isPosInt v = true) :
    ∃ q, v = .vnum q ∧ q.den = 1 ∧ 0 < q := by
  cases v <;> simp_all [isPosInt]

theorem isEnum_elim {l : List String} {v : JVal} (h : isEnum l v = true) :
    ∃ s, v = .vstr s ∧ s ∈ l := by
  cases v <;> simp_all [isEnum]

theorem isArrayMinOf_elim {p : JVal → Bool} {n : Nat} {v : JVal}
    (h : isArrayMinOf p n v = true) :
    ∃ xs, v = .varr xs ∧ (∀ x ∈ xs, p x = true) ∧ n ≤ xs.length := by
  cases v <;> simp_all [isArrayMinOf, List.all_eq_true]

theorem jOpt_resolve {p : JVal → Bool} {v : JVal} (h : jOpt p v = true)
    (hu : isUndefined v = false) : p v = true := by
  simp [jOpt, hu] at h
  exact h

theorem optOr_none_right {α : Type} (a : Option α) : optOr a none = a := by
  cases a <;> rfl

theorem optOr_assoc {α : Type} (a b c : Option α) :
    optOr a (optOr b c) = optOr (optOr a b) c := by
  cases a <;> cases b <;> rfl

theorem getLast?_cons_optOr {α : Type} (a : α) (l : List α) :
    (a :: l).getLast? = optOr l.getLast? (some a) := by
  induction l with
  | nil => rfl
  | cons b m ih =>
    rw [List.getLast?_cons_cons]
    cases hm : (b :: m).getLast? with
    | none =>
      exfalso
      have hs : ((b :: m).getLast?).isSome = true := List.getLast?_isSome.mpr (by simp)
      rw [hm] at hs
      simp at hs
    | some x => rfl

theorem mem_of_getLast? {α : Type} {l : List α} {a : α} (h : l.getLast? = some a) : a ∈ l := by
  induction l with
  | nil => simp at h
  | cons b m ih =>
    rw [getLast?_cons_optOr] at h
    cases hm : m.getLast? with
    | none => simp [hm, optOr] at h; simp [h]
    | some x =>
      rw [hm] at h
      simp [optOr] at h
      subst h
      exact List.mem_cons_of_mem _ (ih hm)

/-- C3 counterexample: the claim's iff (coordinate accepted exactly when it
lies in the 0..1024 times 0..768 rectangle) fails at the in-range
non-integer pair x = 1/2, y = 0, which the schema's `.int()` check rejects. -/
theorem coordinate_claim_refuted :
    ¬ (∀ x y : Rat, validCoordinate (.varr [.vnum x, .vnum y]) = true ↔
        (0 ≤ x ∧ x ≤ 1024 ∧ 0 ≤ y ∧ y ≤ 768)) := by
  intro h
  have h2 := (h (mkRat 1 2) 0).mpr (by refine ⟨by decide, by decide, by decide, by decide⟩)
  have h3 : validCoordinate (.varr [.vnum (mkRat 1 2), .vnum 0]) = false := by decide
  rw [h2] at h3
  cases h3

/-- C3 amended: a pointer coordinate pair (x, y) passes the `Coordinate`
schema iff x and y are integers with 0 ≤ x ≤ 1024 and 0 ≤ y ≤ 768; in
particular (1025, 10) is rejected and (1024, 768) is accepted. -/
theorem coordinate_validation_rule :
    (∀ x y : Rat, validCoordinate (.varr [.vnum x, .vnum y]) = true ↔
        (x.den = 1 ∧ 0 ≤ x ∧ x ≤ 1024 ∧ y.den = 1 ∧ 0 ≤ y ∧ y ≤ 768))
    ∧ validCoordinate (.varr [.vnum 1025, .vnum 10]) = false
    ∧ validCoordinate (.varr [.vnum 1024, .vnum 768]) = true := by
  refine ⟨fun x y => ?_, by decide, by decide⟩
  simp [validCoordinate, Bool.and_eq_true, decide_eq_true_iff]
  tauto

/-- C7: the `chat_history` reducer concatenates the existing conversation
with the delta's value, so existing turns stay a prefix in order and the
conversation length never decreases, across any sequence of merges. -/
theorem conversation_append_only :
    (∀ (s : AgentState) (d : StateDelta),
        (mergeState s d).chat_history = s.chat_history ++ d.chat_history.getD [])
    ∧ (∀ (s : AgentState) (d : StateDelta),
        (mergeState s d).chat_history.take s.chat_history.length = s.chat_history)
    ∧ (∀ (s : AgentState) (d : StateDelta),
        s.chat_history.length ≤ (mergeState s d).chat_history.length)
    ∧ (∀ (s : AgentState) (ds : List StateDelta),
        s.chat_history.length ≤ (ds.foldl mergeState s).chat_history.length) := by
  have hconc : ∀ (s : AgentState) (d : StateDelta),
      (mergeState s d).chat_history = s.chat_history ++ d.chat_history.getD [] := by
    intro s d
    rfl
  refine ⟨hconc, ?_, ?_, ?_⟩
  · intro s d
    rw [hconc]
    exact List.take_left _ _
  · intro s d
    rw [hconc]
    simp
  · intro s ds
    induction ds generalizing s with
    | nil => simp
    | cons d rest ih =>
      calc s.chat_history.length ≤ (mergeState s d).chat_history.length := by rw [hconc]; simp
        _ ≤ (rest.foldl mergeState (mergeState s d)).chat_history.length := ih _
        _ = ((d :: rest).foldl mergeState s).chat_history.length := by simp [List.foldl_cons]

/-- C8: routing after the deciding step depends only on the pending
proposal: an absent outcome, an absent call list, or an empty call list all
route to the terminal node; a non-empty call list routes to the tools node;
and the edge after the tools node always returns to the agent node. -/
theorem routing_rule :
    (∀ s : AgentState, s.agentOutcome = none → routeAfterAgent s = some GraphNode.endNode)
    ∧ (∀ (s : AgentState) (o : AgentOutcome), s.agentOutcome = some o → o.tool_calls = none →
        routeAfterAgent s = some GraphNode.endNode)
    ∧ (∀ (s : AgentState) (o : AgentOutcome), s.agentOutcome = some o → o.tool_calls = some [] →
        routeAfterAgent s = some GraphNode.endNode)
    ∧ (∀ (s : AgentState) (o : AgentOutcome) (cs : List ToolCall), s.agentOutcome = some o →
        o.tool_calls = some cs → cs ≠ [] → routeAfterAgent s = some GraphNode.toolsNode)
    ∧ edgeAfterTools = GraphNode.agentNode
    ∧ (∀ s1 s2 : AgentState, s1.agentOutcome = s2.agentOutcome →
        routeAfterAgent s1 = routeAfterAgent s2) := by
  refine ⟨?_, ?_, ?_, ?_, rfl, ?_⟩
  · intro s h
    simp [routeAfterAgent, shouldContinue, agentEdgeMap, h]
  · intro s o hs ho
    simp [routeAfterAgent, shouldContinue, agentEdgeMap, hs, ho]
  · intro s o hs ho
    simp [routeAfterAgent, shouldContinue, agentEdgeMap, hs, ho]
  · intro s o cs hs ho hne
    cases cs with
    | nil => exact absurd rfl hne
    | cons c rest => simp [routeAfterAgent, shouldContinue, agentEdgeMap, hs, ho]
  · intro s1 s2 h
    simp [routeAfterAgent, shouldContinue, h]

/-- C8 witness: concrete states exercising the empty and non-empty cases. -/
theorem routing_rule_witness :
    routeAfterAgent { chat_history := [], agentOutcome := some ⟨some []⟩ } = some GraphNode.endNode
    ∧ routeAfterAgent { chat_history := [], agentOutcome := some ⟨some [waitCall]⟩ } =
        some GraphNode.toolsNode :=
  ⟨routing_rule.2.2.1 _ ⟨some []⟩ rfl rfl,
   routing_rule.2.2.2.1 _ ⟨some [waitCall]⟩ [waitCall] rfl rfl (by simp)⟩

theorem mkScoutTool_name (ov : String → JVal → Bool) (onm : String → JVal → JVal) (n : String) :
    (mkScoutTool ov onm n).name = n := by
  unfold mkScoutTool
  split_ifs <;> rfl

theorem registry_find_absent (ov : String → JVal → Bool) (onm : String → JVal → JVal)
    {nm : String} (h : nm ∉ scoutToolNames) :
    (scoutRegistry ov onm).find? (fun t => t.name == nm) = none := by
  unfold scoutRegistry
  generalize scoutToolNames = l at h
  induction l with
  | nil => rfl
  | cons a rest ih =>
    simp only [List.map_cons, List.find?_cons]
    have hne : a ≠ nm := fun he => h (he ▸ List.mem_cons_self a rest)
    rw [mkScoutTool_name]
    simp only [beq_eq_false_iff_ne.mpr hne]
    exact ih (fun hm => h (List.mem_cons_of_mem _ hm))

theorem registry_find_computer (ov : String → JVal → Bool) (onm : String → JVal → JVal) :
    (scoutRegistry ov onm).find? (fun t => t.name == "computer") =
      some { name := "computer", validate := validateComputer, normalize := normalizeComputer } := by
  rfl

theorem registry_find_mu (ov : String → JVal → Bool) (onm : String → JVal → JVal) :
    (scoutRegistry ov onm).find? (fun t => t.name == "message_update") =
      some { name := "message_update", validate := validateMessageUpdate,
             normalize := normalizeMessageUpdate } := by
  rfl

theorem registry_find_todo (ov : String → JVal → Bool) (onm : String → JVal → JVal) :
    (scoutRegistry ov onm).find? (fun t => t.name == "todo") =
      some { name := "todo", validate := validateTodo, normalize := normalizeTodo } := by
  rfl

theorem proposalCalls_withProposal (s : AgentState) (calls : List ToolCall) :
    proposalCalls (withProposal s calls) = calls := by
  rfl

theorem foldOutputs_chat_congr {s1 s2 : AgentState} (h : s1.chat_history = s2.chat_history)
    (outs : List ToolOutput) : foldOutputs s1 outs = foldOutputs s2 outs := by
  unfold foldOutputs
  rw [h]

/-- C9: a proposed call whose name is absent from the registry is silently
dropped: the dispatch loop yields the same outcomes with and without it (no
outcome, no error), and `executeTools` therefore produces the same state
delta, while every other call in the batch still executes in proposal
order. -/
theorem unknown_tool_skipped (ov : String → JVal → Bool) (onm : String → JVal → JVal)
    (env : EnvAPI) (nm : String) (args : JVal) (pre post : List ToolCall)
    (h : nm ∉ scoutToolNames) :
    runCalls (scoutRegistry ov onm) env (pre ++ ⟨nm, args⟩ :: post)
      = runCalls (scoutRegistry ov onm) env (pre ++ post)
    ∧ (∀ s : AgentState,
        executeTools (scoutRegistry ov onm) env (withProposal s (pre ++ ⟨nm, args⟩ :: post))
          = executeTools (scoutRegistry ov onm) env (withProposal s (pre ++ post))) := by
  have hrun : runCalls (scoutRegistry ov onm) env (pre ++ ⟨nm, args⟩ :: post)
      = runCalls (scoutRegistry ov onm) env (pre ++ post) := by
    induction pre with
    | nil =>
      simp only [List.nil_append]
      conv_lhs => unfold runCalls
      rw [registry_find_absent ov onm h]
    | cons c rest ih =>
      simp only [List.cons_append]
      unfold runCalls
      rw [ih]
  refine ⟨hrun, fun s => ?_⟩
  unfold executeTools
  rw [proposalCalls_withProposal, proposalCalls_withProposal, hrun]
  cases hr : runCalls (scoutRegistry ov onm) env (pre ++ post) with
  | error e => rfl
  | ok outs => exact foldOutputs_chat_congr rfl outs

/-- C9 witness: the name `not_a_real_tool` is not registered, and dropping
it from a batch containing a `message_update` call leaves the dispatch
result unchanged. -/
theorem unknown_tool_skipped_witness :
    ("not_a_real_tool" ∉ scoutToolNames)
    ∧ runCalls (scoutRegistry trivialVal trivialNorm) nullEnv
        [⟨"not_a_real_tool", .vnull⟩, ⟨"message_update", scanArgs⟩]
      = runCalls (scoutRegistry trivialVal trivialNorm) nullEnv [⟨"message_update", scanArgs⟩] :=
  ⟨by decide,
   (unknown_tool_skipped trivialVal trivialNorm nullEnv "not_a_real_tool" .vnull []
      [⟨"message_update", scanArgs⟩] (by decide)).1⟩

theorem toolInvoke_ok_validate {t : Tool} {env : EnvAPI} {c : ToolCall} {parsed : JVal}
    (h : toolInvoke t env c = .ok parsed) : t.validate c.args = true := by
  unfold toolInvoke at h
  by_cases hv : t.validate c.args = true
  · exact hv
  · rw [if_neg hv] at h
    cases h

theorem runCalls_validated :
    ∀ (calls : List ToolCall) (tools : List Tool) (env : EnvAPI) (outs : List ToolOutput),
    runCalls tools env calls = .ok outs → ∀ o ∈ outs,
    ∃ t, tools.find? (fun t2 => t2.name == o.toolName) = some t ∧ t.validate o.input = true := by
  intro calls
  induction calls with
  | nil =>
    intro tools env outs h o ho
    unfold runCalls at h
    injection h with he
    subst he
    simp at ho
  | cons c rest ih =>
    intro tools env outs h o ho
    unfold runCalls at h
    split at h
    · exact ih tools env outs h o ho
    · rename_i t hfind
      split at h
      · exact Except.noConfusion h
      · rename_i parsed hinv
        split at h
        · exact Except.noConfusion h
        · rename_i outs2 hrest
          injection h with he
          subst he
          rcases List.mem_cons.mp ho with rfl | hmem
          · exact ⟨t, hfind, toolInvoke_ok_validate hinv⟩
          · exact ih tools env outs2 hrest o hmem

theorem foldStep_char {acc b : FoldAcc} {o : ToolOutput} (h : foldStep acc o = .ok b) :
    b.delta.current_ui_status = optOr (uiOf o) acc.delta.current_ui_status
    ∧ b.delta.current_todo_list = optOr (todoOf o) acc.delta.current_todo_list
    ∧ b.delta.latest_screenshot = optOr (shotOf o) acc.delta.latest_screenshot
    ∧ b.msgs = acc.msgs ++ (shotMsgOf o).toList
    ∧ b.delta.chat_history = acc.delta.chat_history
    ∧ b.delta.agentOutcome = acc.delta.agentOutcome := by
  unfold foldStep at h
  split at h
  · rename_i hc
    have hc2 : o.toolName = "computer" := by simpa using hc
    split at h
    · exact Except.noConfusion h
    · rename_i sc hm
      split at h
      · rename_i ht
        split at h
        · exact Except.noConfusion h
        · rename_i act ha
          injection h with he
          subst he
          simp [uiOf, todoOf, shotOf, shotMsgOf, hc2, hm, ht, ha, optOr]
      · rename_i ht
        injection h with he
        subst he
        simp [uiOf, todoOf, shotOf, shotMsgOf, hc2, hm, ht, optOr]
  · rename_i hc
    have hc2 : o.toolName ≠ "computer" := by simpa using hc
    split at h
    · rename_i hu
      have hu2 : o.toolName = "message_update" := by simpa using hu
      split at h
      · rename_i m st em hm1 hm2 hm3
        injection h with he
        subst he
        simp [uiOf, todoOf, shotOf, shotMsgOf, hc2, hu2, hm1, hm2, hm3, optOr]
      · exact Except.noConfusion h
      · exact Except.noConfusion h
      · exact Except.noConfusion h
    · rename_i hu
      have hu2 : o.toolName ≠ "message_update" := by simpa using hu
      split at h
      · rename_i hd
        have hd2 : o.toolName = "todo" := by simpa using hd
        split at h
        · exact Except.noConfusion h
        · rename_i ts hm
          injection h with he
          subst he
          simp [uiOf, todoOf, shotOf, shotMsgOf, hc2, hu2, hd2, hm, optOr, Except.toOption]
      · rename_i hd
        have hd2 : o.toolName ≠ "todo" := by simpa using hd
        injection h with he
        subst he
        simp [uiOf, todoOf, shotOf, shotMsgOf, hc2, hu2, hd2, optOr]

theorem filterMap_cons_getLast? {α β : Type} (f : α → Option β) (o : α) (rest : List α) :
    ((o :: rest).filterMap f).getLast? = optOr ((rest.filterMap f).getLast?) (f o) := by
  rw [List.filterMap_cons]
  cases hf : f o with
  | none => rw [optOr_none_right]
  | some u => rw [getLast?_cons_optOr]

theorem filterMap_cons_toList {α β : Type} (f : α → Option β) (o : α) (rest : List α) :
    (o :: rest).filterMap f = (f o).toList ++ rest.filterMap f := by
  rw [List.filterMap_cons]
  cases hf : f o <;> simp

theorem foldAll_char :
    ∀ (outs : List ToolOutput) (acc b : FoldAcc), foldAll acc outs = .ok b →
    b.delta.current_ui_status = optOr (outs.filterMap uiOf).getLast? acc.delta.current_ui_status
    ∧ b.delta.current_todo_list = optOr (outs.filterMap todoOf).getLast? acc.delta.current_todo_list
    ∧ b.delta.latest_screenshot = optOr (outs.filterMap shotOf).getLast? acc.delta.latest_screenshot
    ∧ b.msgs = acc.msgs ++ outs.filterMap shotMsgOf
    ∧ b.delta.chat_history = acc.delta.chat_history
    ∧ b.delta.agentOutcome = acc.delta.agentOutcome := by
  intro outs
  induction outs with
  | nil =>
    intro acc b h
    unfold foldAll at h
    injection h with he
    subst he
    simp [optOr]
  | cons o rest ih =>
    intro acc b h
    unfold foldAll at h
    split at h
    · exact Except.noConfusion h
    · rename_i acc1 hs
      obtain ⟨f1, f2, f3, f4, f5, f6⟩ := foldStep_char hs
      obtain ⟨i1, i2, i3, i4, i5, i6⟩ := ih acc1 b h
      refine ⟨?_, ?_, ?_, ?_, ?_, ?_⟩
      · rw [i1, f1, optOr_assoc, filterMap_cons_getLast?]
      · rw [i2, f2, optOr_assoc, filterMap_cons_getLast?]
      · rw [i3, f3, optOr_assoc, filterMap_cons_getLast?]
      · rw [i4, f4, filterMap_cons_toList, List.append_assoc]
      · rw [i5, f5]
      · rw [i6, f6]

theorem foldOutputs_char {s : AgentState} {outs : List ToolOutput} {d : StateDelta}
    (h : foldOutputs s outs = .ok d) :
    d.current_ui_status = (outs.filterMap uiOf).getLast?
    ∧ d.current_todo_list = (outs.filterMap todoOf).getLast?
    ∧ d.latest_screenshot = (outs.filterMap shotOf).getLast?
    ∧ d.chat_history = (if (outs.filterMap shotMsgOf).isEmpty then none
        else some (s.chat_history ++ outs.filterMap shotMsgOf))
    ∧ d.agentOutcome = none := by
  unfold foldOutputs at h
  split at h
  · exact Except.noConfusion h
  · rename_i acc hf
    injection h with he
    obtain ⟨h1, h2, h3, h4, h5, h6⟩ := foldAll_char outs _ _ hf
    simp only [List.nil_append] at h4
    rw [optOr_none_right] at h1 h2 h3
    by_cases hm : acc.msgs.isEmpty
    · rw [if_pos hm] at he
      subst he
      have hfm : (outs.filterMap shotMsgOf).isEmpty = true := by rw [← h4]; exact hm
      rw [if_pos hfm]
      exact ⟨h1, h2, h3, h5, h6⟩
    · rw [if_neg hm] at he
      subst he
      have hfm : ¬(outs.filterMap shotMsgOf).isEmpty = true := by rw [← h4]; exact hm
      rw [if_neg hfm]
      exact ⟨h1, h2, h3, by rw [h4], h6⟩

/-- C10: within one batch, the folded delta's overwritten fields come from
the last contributing outcome in proposal order — `current_ui_status` from
the last `message_update` outcome, `current_todo_list` from the last `todo`
outcome, `latest_screenshot` from the last `computer` outcome with a truthy
screenshot — while every screenshot outcome appends its own observation
turn, in proposal order. -/
theorem fold_last_write_semantics (s : AgentState) (outs : List ToolOutput) (d : StateDelta)
    (h : foldOutputs s outs = .ok d) :
    d.current_ui_status = (outs.filterMap uiOf).getLast?
    ∧ d.current_todo_list = (outs.filterMap todoOf).getLast?
    ∧ d.latest_screenshot = (outs.filterMap shotOf).getLast?
    ∧ d.chat_history = (if (outs.filterMap shotMsgOf).isEmpty then none
        else some (s.chat_history ++ outs.filterMap shotMsgOf)) := by
  obtain ⟨h1, h2, h3, h4, _⟩ := foldOutputs_char h
  exact ⟨h1, h2, h3, h4⟩

/-- C10 witness: a batch with two `message_update` outcomes and two
screenshot outcomes; the status and screenshot come from the second of
each, and both observation turns are appended in order. -/
theorem fold_last_write_semantics_witness :
    foldOutputs baseState [muOut "A", shotOut "S1", muOut "B", shotOut "S2"]
      = .ok { chat_history := some [ChatMsg.otherTurn 0,
                screenshotMessage (.vstr "screenshot") (.vstr "S1"),
                screenshotMessage (.vstr "screenshot") (.vstr "S2")],
              latest_screenshot := some (.vstr "S2"),
              current_ui_status := some ⟨"B", "B", "B"⟩ }
    ∧ ([muOut "A", shotOut "S1", muOut "B", shotOut "S2"].filterMap uiOf).getLast?
        = some ⟨"B", "B", "B"⟩
    ∧ ([muOut "A", shotOut "S1", muOut "B", shotOut "S2"].filterMap shotOf).getLast?
        = some (.vstr "S2") :=
  ⟨rfl,
   (fold_last_write_semantics baseState [muOut "A", shotOut "S1", muOut "B", shotOut "S2"]
      _ rfl).1.symm,
   (fold_last_write_semantics baseState [muOut "A", shotOut "S1", muOut "B", shotOut "S2"]
      _ rfl).2.2.1.symm⟩

theorem validateTodo_vobj_count {fs : List (String × JVal)} (h : validateTodo (.vobj fs) = true) :
    countInProgress (fieldOf fs "tasks") ≤ 1 := by
  simp only [validateTodo, Bool.and_eq_true, decide_eq_true_eq] at h
  exact h.2

theorem validateTodo_count_any {a : JVal} (h : validateTodo a = true) :
    ∃ fs, a = .vobj fs ∧ countInProgress (fieldOf fs "tasks") ≤ 1 := by
  cases a with
  | vobj fs => exact ⟨fs, rfl, validateTodo_vobj_count h⟩
  | vundefined => exact absurd h (by simp [validateTodo])
  | vnull => exact absurd h (by simp [validateTodo])
  | vbool b => exact absurd h (by simp [validateTodo])
  | vnum q => exact absurd h (by simp [validateTodo])
  | vstr s2 => exact absurd h (by simp [validateTodo])
  | varr xs => exact absurd h (by simp [validateTodo])

theorem todoOf_elim {o : ToolOutput} {ts : JVal} (h : todoOf o = some ts) :
    o.toolName = "todo" ∧ jsMember o.input "tasks" = .ok ts := by
  unfold todoOf at h
  split at h
  · rename_i hn
    refine ⟨by simpa using hn, ?_⟩
    cases hj : jsMember o.input "tasks" with
    | error e => rw [hj] at h; simp [Except.toOption] at h
    | ok v =>
      rw [hj] at h
      simp [Except.toOption] at h
      rw [h]
  · exact Option.noConfusion h

theorem executeTools_todo_bounded (ov : String → JVal → Bool) (onm : String → JVal → JVal)
    (env : EnvAPI) (s : AgentState) (d : StateDelta) (ts : JVal)
    (hex : executeTools (scoutRegistry ov onm) env s = .ok d)
    (hctl : d.current_todo_list = some ts) : countInProgress ts ≤ 1 := by
  unfold executeTools at hex
  split at hex
  · exact Except.noConfusion hex
  · rename_i outs hrun
    have hchar := (foldOutputs_char hex).2.1
    rw [hctl] at hchar
    have hmem := mem_of_getLast? hchar.symm
    obtain ⟨o, homem, hof⟩ := List.mem_filterMap.mp hmem
    obtain ⟨hname, hjm⟩ := todoOf_elim hof
    obtain ⟨t, hfind, hval⟩ := runCalls_validated _ _ _ _ hrun o homem
    rw [hname, registry_find_todo] at hfind
    injection hfind with hteq
    subst hteq
    obtain ⟨fs, hobj, hcount⟩ := validateTodo_count_any hval
    rw [hobj] at hjm
    unfold jsMember at hjm
    injection hjm with hts
    rw [← hts]
    exact hcount

/-- C6: the merged task list never holds more than one `in_progress` entry:
a `todo` input with two or more `in_progress` tasks fails validation (so its
outcome never reaches the folding step), any delta produced by
`executeTools` carries a task list with at most one `in_progress` entry,
and the merge preserves the invariant. -/
theorem todo_single_in_progress :
    (∀ fs : List (String × JVal), 2 ≤ countInProgress (fieldOf fs "tasks") →
        validateTodo (.vobj fs) = false)
    ∧ (∀ (ov : String → JVal → Bool) (onm : String → JVal → JVal) (env : EnvAPI)
        (s : AgentState) (d : StateDelta) (ts : JVal),
        executeTools (scoutRegistry ov onm) env s = .ok d →
        d.current_todo_list = some ts → countInProgress ts ≤ 1)
    ∧ (∀ (ov : String → JVal → Bool) (onm : String → JVal → JVal) (env : EnvAPI)
        (s : AgentState) (d : StateDelta),
        executeTools (scoutRegistry ov onm) env s = .ok d →
        todoInv s → todoInv (mergeState s d)) := by
  refine ⟨?_, executeTools_todo_bounded, ?_⟩
  · intro fs h2
    by_contra hv
    rw [Bool.not_eq_false] at hv
    have := validateTodo_vobj_count hv
    omega
  · intro ov onm env s d hex hinv ts hts
    have hm : (mergeState s d).current_todo_list = optOr d.current_todo_list s.current_todo_list := rfl
    rw [hm] at hts
    cases hd : d.current_todo_list with
    | none =>
      rw [hd] at hts
      exact hinv ts hts
    | some ts2 =>
      rw [hd] at hts
      simp [optOr] at hts
      rw [← hts]
      exact executeTools_todo_bounded ov onm env s d ts2 hex hd

/-- C6 witness: a two-`in_progress` input is rejected; a concrete run with a
valid `todo` call produces a delta whose task list holds one `in_progress`
entry. -/
theorem todo_single_in_progress_witness :
    2 ≤ countInProgress (fieldOf [("tasks", JVal.varr [oneTask, twoTask])] "tasks")
    ∧ validateTodo todoArgsBad = false
    ∧ executeTools (scoutRegistry trivialVal trivialNorm) nullEnv
        (withProposal baseState [⟨"todo", todoArgsOk⟩]) = .ok { current_todo_list := some (.varr [oneTask]) }
    ∧ countInProgress (.varr [oneTask]) ≤ 1 :=
  ⟨by decide, todo_single_in_progress.1 _ (by decide), rfl,
   todo_single_in_progress.2.1 trivialVal trivialNorm nullEnv
     (withProposal baseState [⟨"todo", todoArgsOk⟩]) _ _ rfl rfl⟩

theorem runCalls_mu (ov : String → JVal → Bool) (onm : String → JVal → JVal) (env : EnvAPI)
    (m st em : String) (hv : validateMessageUpdate (muArgsOf m st em) = true) :
    runCalls (scoutRegistry ov onm) env [⟨"message_update", muArgsOf m st em⟩]
      = match env "message_update" (normalizeMessageUpdate (muArgsOf m st em)) with
        | .ok v => .ok [⟨"message_update", v, muArgsOf m st em⟩]
        | .error e => .ok [⟨"message_update", errorDoc e "message_update" (normalizeMessageUpdate (muArgsOf m st em)), muArgsOf m st em⟩] := by
  unfold runCalls
  rw [registry_find_mu]
  unfold toolInvoke
  dsimp only
  rw [if_pos hv]
  cases henv : env "message_update" (normalizeMessageUpdate (muArgsOf m st em)) <;> rfl

/-- C2: a batch holding one `message_update` call replaces the delta's
`current_ui_status` wholesale with the record built from the call's input
(message, status, status_emoji), regardless of the environment's result, and
contributes no conversation turns; after the merge the state's status is
that record and the conversation is unchanged. -/
theorem message_update_status (s : AgentState) (ov : String → JVal → Bool)
    (onm : String → JVal → JVal) (env : EnvAPI) (m st em : String)
    (hv : validateMessageUpdate (muArgsOf m st em) = true) :
    ∃ d, executeTools (scoutRegistry ov onm) env
        (withProposal s [⟨"message_update", muArgsOf m st em⟩]) = .ok d
      ∧ d.current_ui_status = some ⟨m, st, em⟩
      ∧ d.chat_history = none
      ∧ (mergeState (withProposal s [⟨"message_update", muArgsOf m st em⟩]) d).current_ui_status
          = some ⟨m, st, em⟩
      ∧ (mergeState (withProposal s [⟨"message_update", muArgsOf m st em⟩]) d).chat_history
          = (withProposal s [⟨"message_update", muArgsOf m st em⟩]).chat_history := by
  have hexec : executeTools (scoutRegistry ov onm) env
      (withProposal s [⟨"message_update", muArgsOf m st em⟩])
      = .ok { current_ui_status := some ⟨m, st, em⟩ } := by
    unfold executeTools
    rw [proposalCalls_withProposal, runCalls_mu ov onm env m st em hv]
    cases henv : env "message_update" (normalizeMessageUpdate (muArgsOf m st em)) <;> rfl
  refine ⟨{ current_ui_status := some ⟨m, st, em⟩ }, hexec, rfl, rfl, rfl, ?_⟩
  show (withProposal s [⟨"message_update", muArgsOf m st em⟩]).chat_history ++ [] = _
  exact List.append_nil _

/-- C2 witness: the spec's end-to-end example input. -/
theorem message_update_status_witness :
    validateMessageUpdate scanArgs = true
    ∧ ∃ d, executeTools (scoutRegistry trivialVal trivialNorm) nullEnv
        (withProposal baseState [⟨"message_update", scanArgs⟩]) = .ok d
      ∧ d.current_ui_status = some ⟨"Scanning files", "Scanning files", "🔍"⟩
      ∧ d.chat_history = none
      ∧ (mergeState (withProposal baseState [⟨"message_update", scanArgs⟩]) d).current_ui_status
          = some ⟨"Scanning files", "Scanning files", "🔍"⟩
      ∧ (mergeState (withProposal baseState [⟨"message_update", scanArgs⟩]) d).chat_history
          = (withProposal baseState [⟨"message_update", scanArgs⟩]).chat_history :=
  ⟨by decide, message_update_status baseState trivialVal trivialNorm nullEnv
    "Scanning files" "Scanning files" "🔍" (by decide)⟩

/-- C1 counterexample: with every tool registered and a healthy environment,
a single `computer` call whose args violate the schema (a `wait` with no
duration) makes the tool-execution step itself reject — the Zod parsing
exception thrown by `tool.invoke` propagates out of `executeTools` (no
outcome, no structured error document returned as data). -/
theorem contract_violation_throws :
    ∃ e, executeTools (scoutRegistry trivialVal trivialNorm) nullEnv
      (withProposal baseState [waitNoDurationCall]) = .error e :=
  ⟨_, rfl⟩

/-- C1 amended: errors thrown by the environment during an accepted call are
caught and returned as data — the outcome's result is the structured error
document carrying the message, the tool name and the validated input; but a
schema violation in a call's args makes the LangChain tool wrapper throw
before the catch-equipped `func` runs, and that exception propagates out of
the dispatch loop, aborting the whole batch. -/
theorem tool_error_policy :
    (∀ (t : Tool) (env : EnvAPI) (c : ToolCall) (msg : String),
        t.validate c.args = true → env t.name (t.normalize c.args) = .error msg →
        toolInvoke t env c = .ok (errorDoc msg t.name (t.normalize c.args)))
    ∧ (∀ (tools : List Tool) (env : EnvAPI) (pre post : List ToolCall) (c : ToolCall) (t : Tool),
        tools.find? (fun t2 => t2.name == c.name) = some t → t.validate c.args = false →
        ∃ e, runCalls tools env (pre ++ c :: post) = .error e) := by
  constructor
  · intro t env c msg hval henv
    unfold toolInvoke
    rw [if_pos hval, henv]
  · intro tools env pre post c t hfind hval
    induction pre with
    | nil =>
      refine ⟨"ToolInputParsingException: received tool input did not match expected schema for "
        ++ c.name, ?_⟩
      simp only [List.nil_append]
      unfold runCalls
      rw [hfind]
      unfold toolInvoke
      dsimp only
      rw [if_neg (by simp [hval])]
    | cons c2 rest ih =>
      obtain ⟨e, he⟩ := ih
      simp only [List.cons_append]
      unfold runCalls
      cases hf2 : tools.find? (fun t2 => t2.name == c2.name) with
      | none => exact ⟨e, he⟩
      | some t2 =>
        dsimp only
        cases hinv : toolInvoke t2 env c2 with
        | error e2 => exact ⟨e2, rfl⟩
        | ok parsed =>
          rw [he]
          exact ⟨e, rfl⟩

/-- C1 amended witness: a valid `wait` call against a throwing environment
yields the structured error document as the outcome's result; a schema
violation placed after a valid call aborts the dispatch loop. -/
theorem tool_error_policy_witness :
    validateComputer waitCall.args = true
    ∧ toolInvoke ⟨"computer", validateComputer, normalizeComputer⟩ (failEnv "boom") waitCall
        = .ok (errorDoc "boom" "computer" (normalizeComputer waitCall.args))
    ∧ validateComputer waitNoDurationCall.args = false
    ∧ (∃ e, runCalls (scoutRegistry trivialVal trivialNorm) nullEnv
        [waitCall, waitNoDurationCall] = .error e) :=
  ⟨by decide,
   tool_error_policy.1 ⟨"computer", validateComputer, normalizeComputer⟩ (failEnv "boom")
     waitCall "boom" (by decide) rfl,
   by decide,
   tool_error_policy.2 (scoutRegistry trivialVal trivialNorm) nullEnv [waitCall] []
     waitNoDurationCall ⟨"computer", validateComputer, normalizeComputer⟩
     (registry_find_computer trivialVal trivialNorm) (by decide)⟩

theorem isArrayMinOf_truthy {p : JVal → Bool} {n : Nat} {v : JVal}
    (h : isArrayMinOf p n v = true) : jsTruthy v = true := by
  cases v <;> simp_all [isArrayMinOf, jsTruthy]

theorem messageAskFieldsOk_parts {fs : List (String × JVal)} (h : messageAskFieldsOk fs = true) :
    isStrMin 1 (fieldOf fs "message") = true
    ∧ jOpt isAbsPath (fieldOf fs "attachment") = true
    ∧ jOpt (isArrayMinOf validInputQuestion 2) (fieldOf fs "follow_ups_input") = true
    ∧ jOpt (isArrayMinOf validSelectOption 2) (fieldOf fs "follow_ups_select") = true := by
  simp only [messageAskFieldsOk, Bool.and_eq_true] at h
  exact ⟨h.1.1.1, h.1.1.2, h.1.2, h.2⟩

/-- C5: supplying both `follow_ups_input` and `follow_ups_select` is always
rejected; supplying neither is always rejected; and an otherwise
field-valid input (which requires at least two entries in a supplied
alternative) with exactly one of the two present is accepted. -/
theorem message_ask_follow_ups :
    (∀ fs : List (String × JVal), isUndefined (fieldOf fs "follow_ups_input") = false →
        isUndefined (fieldOf fs "follow_ups_select") = false → validateMessageAsk (.vobj fs) = false)
    ∧ (∀ fs : List (String × JVal), isUndefined (fieldOf fs "follow_ups_input") = true →
        isUndefined (fieldOf fs "follow_ups_select") = true → validateMessageAsk (.vobj fs) = false)
    ∧ (∀ fs : List (String × JVal), messageAskFieldsOk fs = true →
        isUndefined (fieldOf fs "follow_ups_input") ≠ isUndefined (fieldOf fs "follow_ups_select") →
        validateMessageAsk (.vobj fs) = true) := by
  refine ⟨?_, ?_, ?_⟩
  · intro fs hfi hsel
    by_contra hv
    rw [Bool.not_eq_false] at hv
    simp only [validateMessageAsk, Bool.and_eq_true] at hv
    obtain ⟨⟨hfld, hnot⟩, _⟩ := hv
    obtain ⟨_, _, hin, hse⟩ := messageAskFieldsOk_parts hfld
    have h1 : jsTruthy (fieldOf fs "follow_ups_input") = true :=
      isArrayMinOf_truthy (jOpt_resolve hin hfi)
    have h2 : jsTruthy (fieldOf fs "follow_ups_select") = true :=
      isArrayMinOf_truthy (jOpt_resolve hse hsel)
    rw [h1, h2] at hnot
    simp at hnot
  · intro fs hfi hsel
    rw [isUndefined_iff] at hfi hsel
    simp [validateMessageAsk, hfi, hsel, jsTruthy]
  · intro fs hfld hne
    obtain ⟨_, _, hin, hse⟩ := messageAskFieldsOk_parts hfld
    cases hfi : isUndefined (fieldOf fs "follow_ups_input") with
    | true =>
      have hsel : isUndefined (fieldOf fs "follow_ups_select") = false := by
        cases hs : isUndefined (fieldOf fs "follow_ups_select") with
        | true => exact absurd (hfi.trans hs.symm) hne
        | false => rfl
      have h2 : jsTruthy (fieldOf fs "follow_ups_select") = true :=
        isArrayMinOf_truthy (jOpt_resolve hse hsel)
      rw [isUndefined_iff] at hfi
      simp [validateMessageAsk, hfi, h2, hfld, show jsTruthy JVal.vundefined = false from rfl]
    | false =>
      have h1 : jsTruthy (fieldOf fs "follow_ups_input") = true :=
        isArrayMinOf_truthy (jOpt_resolve hin hfi)
      cases hs : isUndefined (fieldOf fs "follow_ups_select") with
      | true =>
        rw [isUndefined_iff] at hs
        simp [validateMessageAsk, hs, h1, hfld, show jsTruthy JVal.vundefined = false from rfl]
      | false => exact absurd (hfi.trans hs.symm) hne

/-- C5 witness: both alternatives rejected, neither rejected, and each
single alternative with two entries accepted. -/
theorem message_ask_follow_ups_witness :
    validateMessageAsk (.vobj askBothFields) = false
    ∧ validateMessageAsk (.vobj askNeitherFields) = false
    ∧ validateMessageAsk (.vobj askSelectFields) = true
    ∧ validateMessageAsk (.vobj [("message", .vstr "Done"), ("follow_ups_input", twoInputs)]) = true :=
  ⟨message_ask_follow_ups.1 askBothFields (by decide) (by decide),
   message_ask_follow_ups.2.1 askNeitherFields (by decide) (by decide),
   message_ask_follow_ups.2.2 askSelectFields (by decide) (by decide),
   message_ask_follow_ups.2.2 [("message", .vstr "Done"), ("follow_ups_input", twoInputs)]
     (by decide) (by decide)⟩

theorem if_chain6 (c1 c2 c3 c4 c5 c6 : Bool) :
    (if c1 then false else if c2 then false else if c3 then false
     else if c4 then false else if c5 then false else if c6 then false else true) = true
    ↔ (c1 = false ∧ c2 = false ∧ c3 = false ∧ c4 = false ∧ c5 = false ∧ c6 = false) := by
  revert c1 c2 c3 c4 c5 c6
  decide

theorem computerRefineOk_iff {fs : List (String × JVal)} :
    computerRefineOk fs = true ↔
    ((pointerActions.contains (actionString fs) && !(jsTruthy (fieldOf fs "coordinate"))) = false
     ∧ (actionString fs == "left_click_drag" &&
        (!(jsTruthy (fieldOf fs "coordinate")) || !(jsTruthy (fieldOf fs "start_coordinate")))) = false
     ∧ ((actionString fs == "type" || actionString fs == "key") &&
        !(jsTruthy (fieldOf fs "text"))) = false
     ∧ (actionString fs == "hold_key" &&
        (!(jsTruthy (fieldOf fs "text")) || isUndefined (fieldOf fs "duration"))) = false
     ∧ (actionString fs == "wait" && isUndefined (fieldOf fs "duration")) = false
     ∧ (actionString fs == "scroll" &&
        (!(jsTruthy (fieldOf fs "scroll_direction")) || isUndefined (fieldOf fs "scroll_amount"))) = false) := by
  unfold computerRefineOk
  exact if_chain6 _ _ _ _ _ _

theorem computerFieldsOk_parts {fs : List (String × JVal)} (h : computerFieldsOk fs = true) :
    isEnum computerActions (fieldOf fs "action") = true
    ∧ jOpt validCoordinate (fieldOf fs "coordinate") = true
    ∧ jOpt isStrAny (fieldOf fs "text") = true
    ∧ jOpt isPosNum (fieldOf fs "duration") = true
    ∧ jOpt (isEnum scrollDirections) (fieldOf fs "scroll_direction") = true
    ∧ jOpt isPosInt (fieldOf fs "scroll_amount") = true
    ∧ jOpt validCoordinate (fieldOf fs "start_coordinate") = true := by
  simp only [computerFieldsOk, Bool.and_eq_true] at h
  exact ⟨h.1.1.1.1.1.1, h.1.1.1.1.1.2, h.1.1.1.1.2, h.1.1.1.2, h.1.1.2, h.1.2, h.2⟩

theorem truthy_opt_str {v : JVal} (hopt : jOpt isStrAny v = true) (ht : jsTruthy v = true) :
    ∃ s, v = .vstr s ∧ s ≠ "" := by
  obtain ⟨s, rfl⟩ := isStrAny_elim (jOpt_resolve hopt (jsTruthy_not_undefined ht))
  refine ⟨s, rfl, ?_⟩
  simpa [jsTruthy] using ht

theorem and_false_of_true {a b : Bool} (h : (a && b) = false) (ha : a = true) : b = false := by
  rw [ha] at h
  simpa using h

theorem not_truthy_false {v : JVal} (h : (!(jsTruthy v)) = false) : jsTruthy v = true := by
  simpa using h

/-- C4: acceptance by the `computer` schema implies every action-dependent
requirement for the given action value: pointer actions carry a valid
coordinate, a drag carries both coordinates, `wait` and `hold_key` carry a
positive duration, `hold_key`/`type`/`key` carry non-empty text, and
`scroll` carries a direction from the enum together with a supplied
non-negative (indeed positive integer) amount; in particular a `scroll`
call missing `scroll_amount` is rejected even with `scroll_direction`
present, and a `wait` call missing `duration` is rejected. -/
theorem computer_action_requirements :
    (∀ fs : List (String × JVal), validateComputer (.vobj fs) = true →
      ((actionString fs ∈ pointerActions →
          jsTruthy (fieldOf fs "coordinate") = true
          ∧ validCoordinate (fieldOf fs "coordinate") = true)
       ∧ (actionString fs = "left_click_drag" →
          validCoordinate (fieldOf fs "coordinate") = true
          ∧ validCoordinate (fieldOf fs "start_coordinate") = true)
       ∧ (actionString fs = "wait" → ∃ q : Rat, fieldOf fs "duration" = .vnum q ∧ 0 < q)
       ∧ (actionString fs = "hold_key" →
          (∃ s, fieldOf fs "text" = .vstr s ∧ s ≠ "")
          ∧ (∃ q : Rat, fieldOf fs "duration" = .vnum q ∧ 0 < q))
       ∧ (actionString fs = "scroll" →
          (∃ dir, fieldOf fs "scroll_direction" = .vstr dir ∧ dir ∈ scrollDirections)
          ∧ (∃ q : Rat, fieldOf fs "scroll_amount" = .vnum q ∧ q.den = 1 ∧ 0 ≤ q))
       ∧ ((actionString fs = "type" ∨ actionString fs = "key") →
          ∃ s, fieldOf fs "text" = .vstr s ∧ s ≠ "")))
    ∧ validateComputer (.vobj [("action", .vstr "scroll"), ("scroll_direction", .vstr "up")]) = false
    ∧ validateComputer (.vobj [("action", .vstr "wait")]) = false := by
  refine ⟨?_, by decide, by decide⟩
  intro fs h
  have hsplit : computerFieldsOk fs = true ∧ computerRefineOk fs = true := by
    simpa [validateComputer, Bool.and_eq_true] using h
  obtain ⟨hf, hr⟩ := hsplit
  obtain ⟨hact, hco, htx, hdu, hsd, hsa, hsc⟩ := computerFieldsOk_parts hf
  obtain ⟨r1, r2, r3, r4, r5, r6⟩ := computerRefineOk_iff.mp hr
  refine ⟨?_, ?_, ?_, ?_, ?_, ?_⟩
  · intro hmem
    have hcont : pointerActions.contains (actionString fs) = true := by simpa using hmem
    have ht := not_truthy_false (and_false_of_true r1 hcont)
    exact ⟨ht, jOpt_resolve hco (jsTruthy_not_undefined ht)⟩
  · intro ha
    have hb : (actionString fs == "left_click_drag") = true := by simp [ha]
    have h2 := and_false_of_true r2 hb
    rw [Bool.or_eq_false_iff] at h2
    have ht1 := not_truthy_false h2.1
    have ht2 := not_truthy_false h2.2
    exact ⟨jOpt_resolve hco (jsTruthy_not_undefined ht1), jOpt_resolve hsc (jsTruthy_not_undefined ht2)⟩
  · intro ha
    have hb : (actionString fs == "wait") = true := by simp [ha]
    have h2 := and_false_of_true r5 hb
    exact isPosNum_elim (jOpt_resolve hdu h2)
  · intro ha
    have hb : (actionString fs == "hold_key") = true := by simp [ha]
    have h2 := and_false_of_true r4 hb
    rw [Bool.or_eq_false_iff] at h2
    have ht := not_truthy_false h2.1
    exact ⟨truthy_opt_str htx ht, isPosNum_elim (jOpt_resolve hdu h2.2)⟩
  · intro ha
    have hb : (actionString fs == "scroll") = true := by simp [ha]
    have h2 := and_false_of_true r6 hb
    rw [Bool.or_eq_false_iff] at h2
    have ht := not_truthy_false h2.1
    obtain ⟨dir, hdir, hmem⟩ := isEnum_elim (jOpt_resolve hsd (jsTruthy_not_undefined ht))
    obtain ⟨q, hq, hden, hpos⟩ := isPosInt_elim (jOpt_resolve hsa h2.2)
    exact ⟨⟨dir, hdir, hmem⟩, ⟨q, hq, hden, le_of_lt hpos⟩⟩
  · intro ha
    have hb : ((actionString fs == "type") || (actionString fs == "key")) = true := by
      rcases ha with ha | ha <;> simp [ha]
    have h2 := and_false_of_true r3 hb
    exact truthy_opt_str htx (not_truthy_false h2)

/-- C4 witness: a fully supplied `scroll` call is accepted and satisfies
every applicable requirement. -/
theorem computer_action_requirements_witness :
    validateComputer (.vobj [("action", .vstr "scroll"), ("scroll_direction", .vstr "down"),
        ("scroll_amount", .vnum 3), ("coordinate", .varr [.vnum 100, .vnum 200])]) = true
    ∧ ((∃ dir, fieldOf [("action", .vstr "scroll"), ("scroll_direction", .vstr "down"),
          ("scroll_amount", .vnum 3), ("coordinate", .varr [.vnum 100, .vnum 200])]
          "scroll_direction" = .vstr dir ∧ dir ∈ scrollDirections)
       ∧ (∃ q : Rat, fieldOf [("action", .vstr "scroll"), ("scroll_direction", .vstr "down"),
          ("scroll_amount", .vnum 3), ("coordinate", .varr [.vnum 100, .vnum 200])]
          "scroll_amount" = .vnum q ∧ q.den = 1 ∧ 0 ≤ q)) :=
  ⟨by decide,
   (computer_action_requirements.1 [("action", .vstr "scroll"), ("scroll_direction", .vstr "down"),
      ("scroll_amount", .vnum 3), ("coordinate", .varr [.vnum 100, .vnum 200])]
      (by decide)).2.2.2.2.1 rfl⟩
